import Mathlib

/-!
Verification of the espore firmware builder (src/builder/builder.go).

This file gives a shallow embedding of the dependency-resolution and
image-packing pipeline of the builder package and proves the specified
properties about it.  Go maps are modelled as association lists
(`List (String × α)`); Go map iteration is modelled as traversal of the
association list in its list order (one of the orders the Go runtime may
produce).  Filesystem reads are modelled by an explicit content function
`String → Option String` passed as a parameter; external collaborators
(SHA-1, the gobwas glob compiler, JSON (de)serialisation of documents)
are modelled as function parameters or, where their output shape matters,
by explicit constructions noted in the relevant doc comments.
-/

namespace Espore

/-- `FileEntry2` from builder.go: one indexed file of a firmware root. -/
structure FileEntry2 where
  Base : String
  Path : String
  Hash : String
  Dependencies : List String
  Datafiles : List String
deriving DecidableEq

/-- `FirmwareRoot` from builder.go.  `Files` is a Go map keyed by the
entry's relative path, modelled as an association list. -/
structure FirmwareRoot where
  BasePath : String
  Files : List (String × FileEntry2)
deriving DecidableEq

/-- `LibDef` from builder.go. -/
structure LibDef where
  Name : String
  IncludeLua : Bool
  Include : List String
deriving DecidableEq

/-- `ModuleDef` from builder.go. -/
structure ModuleDef where
  Name : String
  Autostart : Bool
deriving DecidableEq

/-- `FirmwareDef2` from builder.go, with the embedded `DeviceInfo`
flattened into the `Name` and `ID` fields. -/
structure FirmwareDef2 where
  Name : String
  ID : String
  Libs : List LibDef
  Modules : List ModuleDef
deriving DecidableEq

/-- `FirmwareManifest2` from builder.go, with the embedded `DeviceInfo`
flattened. -/
structure FirmwareManifest2 where
  Name : String
  ID : String
  Files : List FileEntry2
deriving DecidableEq

/-- The file map accumulated per device (Go: `map[string]*FileEntry2`),
modelled as an association list in insertion order. -/
abbrev FileMap := List (String × FileEntry2)

/-- Lookup in an association list modelling a Go map read. -/
def alookup {α : Type} : List (String × α) → String → Option α
  | [], _ => none
  | (k, v) :: rest, key => if key = k then some v else alookup rest key

/-- Keys of an association list. -/
def keys {α : Type} (l : List (String × α)) : List String :=
  l.map Prod.fst

/-- Go map assignment `m[k] = v`: overwrite the binding if the key is
present, otherwise add a new binding. -/
def setk : FileMap → String → FileEntry2 → FileMap
  | [], k, v => [(k, v)]
  | kv :: rest, k, v => if kv.1 = k then (k, v) :: rest else kv :: setk rest k v

/-- `filepath.Join` for the clean relative paths the builder uses,
modelled as concatenation with a single separator. -/
def joinPath (a b : String) : String := a ++ "/" ++ b

/-- `Mod2File` from builder.go: replace every dot of the module name by a
path separator (`strings.ReplaceAll(moduleName, ".", "/")`) and append
the script extension. -/
def mod2FileChars : List Char → List Char
  | [] => []
  | c :: rest => (if c = '.' then '/' else c) :: mod2FileChars rest

/-- `Mod2File` from builder.go. -/
def Mod2File (moduleName : String) : String :=
  String.mk (mod2FileChars moduleName.toList) ++ ".lua"

/-- The message of `ErrFileEntryNotFound` from builder.go. -/
def ErrFileEntryNotFound : String := "Cannot find file in firmware roots"

/-- `FindInRoots` from builder.go: first root containing the path wins. -/
def FindInRoots (fileName : String) : List FirmwareRoot → Option FileEntry2
  | [] => none
  | root :: rest =>
    match alookup root.Files fileName with
    | some entry => some entry
    | none => FindInRoots fileName rest

/-- The zero value `FirmwareRoot{}` that Go produces for
`allRoots["firmware"]` when the key is absent. -/
def emptyRoot : FirmwareRoot := { BasePath := "", Files := [] }

/-- The loop body of `getDeviceFirmwareRoots` from builder.go: collect, in
declared order, the root of every library flagged `IncludeLua`; a missing
library root is an error. -/
def libRootsOf (allRoots : List (String × FirmwareRoot)) :
    List LibDef → Except String (List FirmwareRoot)
  | [] => .ok []
  | libDef :: rest =>
    if libDef.IncludeLua then
      match alookup allRoots (joinPath "site/lib" libDef.Name) with
      | none => .error ("Cannot find library with name \x27" ++ libDef.Name ++ "\x27")
      | some root =>
        match libRootsOf allRoots rest with
        | .error e => .error e
        | .ok rs => .ok (root :: rs)
    else libRootsOf allRoots rest

/-- `getDeviceFirmwareRoots` from builder.go: the dependency-search roots
of a device are its `IncludeLua` libraries in declared order followed by
the shared core root `allRoots["firmware"]` (Go's zero value when that
key is absent). -/
def getDeviceFirmwareRoots (allRoots : List (String × FirmwareRoot))
    (libs : List LibDef) : Except String (List FirmwareRoot) :=
  match libRootsOf allRoots libs with
  | .error e => .error e
  | .ok rs => .ok (rs ++ [(alookup allRoots "firmware").getD emptyRoot])

/-- Result of the fuelled dependency resolver: success, a resolution
error, or fuel exhaustion (proved unreachable for the fuel bound used by
`AddFilesFromModule`). -/
inductive RRes where
  | ok (fm : FileMap)
  | err (msg : String)
  | outOfFuel
deriving DecidableEq

/-- The wrap `fmt.Errorf("Cannot resolve dependency %q of %s: %s", ...)`
from `AddFilesFromModule`. -/
def depErrWrap (dep entryPath e : String) : String :=
  "Cannot resolve dependency \"" ++ dep ++ "\" of " ++ entryPath ++ ": " ++ e

/-- The dependency loop of `AddFilesFromModule` from builder.go,
abstracted over the recursive resolver call. -/
def addDepsWith (recur : String → FileMap → RRes) (entry : FileEntry2) :
    List String → FileMap → RRes
  | [], fileMap => .ok fileMap
  | dep :: rest, fileMap =>
    match recur dep fileMap with
    | .ok fm => addDepsWith recur entry rest fm
    | .err e => .err (depErrWrap dep entry.Path e)
    | .outOfFuel => .outOfFuel

/-- The body of `AddFilesFromModule` from builder.go: return at once if
the module's path is already recorded, otherwise search the roots in
order, record the first match, and recurse into its declared
dependencies. -/
def resolveStep (roots : List FirmwareRoot) (recur : String → FileMap → RRes)
    (moduleName : String) (fileMap : FileMap) : RRes :=
  let moduleFileName := Mod2File moduleName
  match alookup fileMap moduleFileName with
  | some _ => .ok fileMap
  | none =>
    match FindInRoots moduleFileName roots with
    | none => .err ("Error finding " ++ moduleFileName ++ ": " ++ ErrFileEntryNotFound)
    | some entry =>
      addDepsWith recur entry entry.Dependencies (fileMap ++ [(moduleFileName, entry)])

/-- `AddFilesFromModule` from builder.go as a fuelled recursion; the
recursion depth of the Go function is bounded by the number of root
entries, which the fuel bound of `AddFilesFromModule` accounts for. -/
def addFilesFromModuleF (roots : List FirmwareRoot) : Nat → String → FileMap → RRes
  | 0 => fun _ _ => .outOfFuel
  | fuel + 1 => resolveStep roots (addFilesFromModuleF roots fuel)

/-- All path keys appearing in any of the given roots. -/
def rootPaths (roots : List FirmwareRoot) : List String :=
  (roots.map (fun r => keys r.Files)).flatten

/-- `AddFilesFromModule` from builder.go, run with sufficient fuel (the
fuel error is proved unreachable). -/
def AddFilesFromModule (moduleName : String) (roots : List FirmwareRoot)
    (fileMap : FileMap) : Except String FileMap :=
  match addFilesFromModuleF roots ((rootPaths roots).length + 1) moduleName fileMap with
  | .ok fm => .ok fm
  | .err e => .error e
  | .outOfFuel => .error "internal: resolution fuel exhausted"

/-- The module loop of `buildDeviceFirmwareManifest` from builder.go,
wrapping each module failure as
`fmt.Errorf("Cannot add files from module %s: %s", ...)`. -/
def resolveModules (roots : List FirmwareRoot) :
    List ModuleDef → FileMap → Except String FileMap
  | [], fm => .ok fm
  | md :: rest, fm =>
    match AddFilesFromModule md.Name roots fm with
    | .error e => .error ("Cannot add files from module " ++ md.Name ++ ": " ++ e)
    | .ok fm2 => resolveModules roots rest fm2

/-- The inner match loop of `AddOtherFiles` from builder.go: every entry
of the library root whose path matches the compiled glob is written into
the file map (overwriting a same-path entry). -/
def addMatching (g : String → Bool) (files : List (String × FileEntry2))
    (fm : FileMap) : FileMap :=
  files.foldl (fun acc kv => if g kv.1 then setk acc kv.1 kv.2 else acc) fm

/-- The pattern loop of `AddOtherFiles` from builder.go for one library.
`globCompile` models `glob.Compile(pattern, '/')` of the external gobwas
glob library: `none` is a compile failure. -/
def addLibPatterns (globCompile : String → Option (String → Bool))
    (allRoots : List (String × FirmwareRoot)) (libName : String) :
    List String → FileMap → Except String FileMap
  | [], fm => .ok fm
  | pat :: rest, fm =>
    match globCompile pat with
    | none => .error ("Error in glob expression, library " ++ libName ++ ": bad pattern")
    | some g =>
      match alookup allRoots (joinPath "site/lib" libName) with
      | none => .error ("Cannot find library " ++ libName ++ ": %!s(<nil>)")
      | some libRoot => addLibPatterns globCompile allRoots libName rest (addMatching g libRoot.Files fm)

/-- `AddOtherFiles` from builder.go. -/
def AddOtherFiles (globCompile : String → Option (String → Bool))
    (allRoots : List (String × FirmwareRoot)) :
    List LibDef → FileMap → Except String FileMap
  | [], fm => .ok fm
  | lib :: rest, fm =>
    match addLibPatterns globCompile allRoots lib.Name lib.Include fm with
    | .error e => .error e
    | .ok fm2 => AddOtherFiles globCompile allRoots rest fm2

/-- `AddDeviceSpecificFiles` from builder.go: every file of the device's
own root is written into the file map keyed by its path, unconditionally
overwriting same-path entries from earlier stages. -/
def AddDeviceSpecificFiles (deviceRoot : FirmwareRoot) (fileMap : FileMap) : FileMap :=
  deviceRoot.Files.foldl (fun fm kv => setk fm kv.2.Path kv.2) fileMap

/-- The file-map assembly of `buildDeviceFirmwareManifest` from
builder.go (everything between reading the firmware definition and
building the manifest value): dependency closure of the declared
modules, then library include patterns, then the device-specific
overlay.  The parsed `firmware.json` is taken as the `fwDef` argument
(`utils.ReadJSON` is an external collaborator). -/
def deviceFileMap (globCompile : String → Option (String → Bool))
    (allRoots : List (String × FirmwareRoot)) (deviceName : String)
    (fwDef : FirmwareDef2) : Except String FileMap :=
  match getDeviceFirmwareRoots allRoots fwDef.Libs with
  | .error e => .error ("Cannot build firmware roots for " ++ deviceName ++ ": " ++ e)
  | .ok roots =>
    match resolveModules roots fwDef.Modules [] with
    | .error e => .error e
    | .ok fm =>
      match AddOtherFiles globCompile allRoots fwDef.Libs fm with
      | .error e => .error ("Error adding other files in device " ++ deviceName ++ ": " ++ e)
      | .ok fm2 =>
        match alookup allRoots (joinPath "site/devices" deviceName) with
        | none => .error ("Cannot find device root for " ++ deviceName)
        | some deviceRoot => .ok (AddDeviceSpecificFiles deviceRoot fm2)

/-- `buildDeviceFirmwareManifest` from builder.go: the manifest carries
the device identity and the file-map values in map iteration order
(modelled as the association-list order; the Go code performs no sort
here). -/
def buildDeviceFirmwareManifest (globCompile : String → Option (String → Bool))
    (allRoots : List (String × FirmwareRoot)) (deviceName : String)
    (fwDef : FirmwareDef2) : Except String FirmwareManifest2 :=
  match deviceFileMap globCompile allRoots deviceName fwDef with
  | .error e => .error e
  | .ok fm => .ok { Name := fwDef.Name, ID := fwDef.ID, Files := fm.map Prod.snd }

/-- Lower-case hex digit for a value below 16. -/
def hexDigit (n : Nat) : Char :=
  if n < 10 then Char.ofNat (48 + n) else Char.ofNat (87 + n)

/-- Two lower-case hex digits of a byte value. -/
def hexByte (n : Nat) : String :=
  String.mk [hexDigit ((n / 16) % 16), hexDigit (n % 16)]

/-- Escaping of one character as performed by Go's `json.Marshal` on a
string value (default HTML-escaping encoder). -/
def jsonEscapeChar (c : Char) : String :=
  if c = '"' then "\\\""
  else if c = '\\' then "\\\\"
  else if c = '\n' then "\\n"
  else if c = '\r' then "\\r"
  else if c = '\t' then "\\t"
  else if c = '<' then "\\u003c"
  else if c = '>' then "\\u003e"
  else if c = '&' then "\\u0026"
  else if c.toNat < 32 then "\\u00" ++ hexByte c.toNat
  else String.singleton c

/-- Go `json.Marshal` of a string value. -/
def goJSONString (s : String) : String :=
  "\"" ++ String.join (s.toList.map jsonEscapeChar) ++ "\""

/-- Comma-joined rendering of already-serialised JSON values. -/
def joinComma : List String → String
  | [] => ""
  | [x] => x
  | x :: rest => x ++ "," ++ joinComma rest

/-- Go `json.Marshal` of an initialised (non-nil) `[]string`: a JSON
array, the literal `[]` when the slice is empty. -/
def goJSONStringArray (l : List String) : String :=
  "[" ++ joinComma (l.map goJSONString) ++ "]"

/-- `writeFileToImage` from builder.go: the path line, the byte-length
line, then the raw content. -/
def fileRecord (path content : String) : String :=
  path ++ "\n" ++ toString content.utf8ByteSize ++ "\n" ++ content

/-- The header block written by `writeFirmwareImage` from builder.go. -/
def imageHeader (m : FirmwareManifest2) : String :=
  "Version: 1 -- HomeNode Device Image File\n" ++
  "Device Id: " ++ m.ID ++ "\n" ++
  "Device Name: " ++ m.Name ++ "\n" ++
  "Total files: " ++ toString (m.Files.length + 1) ++ "\n" ++
  "\n"

/-- Lexicographic at-most comparison of character lists: the model of
`strings.Compare(a, b) <= 0` from Go (UTF-8 byte order coincides with
code-point order). -/
def charListLe : List Char → List Char → Bool
  | [], _ => true
  | _ :: _, [] => false
  | a :: as, b :: bs =>
    if a.toNat < b.toNat then true
    else if b.toNat < a.toNat then false
    else charListLe as bs

theorem charListLe_total : ∀ (as bs : List Char),
    charListLe as bs = true ∨ charListLe bs as = true
  | [], _ => Or.inl rfl
  | _ :: _, [] => Or.inr rfl
  | a :: as, b :: bs => by
    by_cases h1 : a.toNat < b.toNat
    · left
      simp [charListLe, h1]
    · by_cases h2 : b.toNat < a.toNat
      · right
        simp [charListLe, h2]
      · rcases charListLe_total as bs with h | h
        · left
          simp [charListLe, h1, h2, h]
        · right
          simp [charListLe, h1, h2, h]

theorem charListLe_trans : ∀ {as bs cs : List Char},
    charListLe as bs = true → charListLe bs cs = true → charListLe as cs = true
  | [], _, _, _, _ => rfl
  | a :: as, [], _, h, _ => by cases h
  | _ :: _, _ :: _, [], _, h => by cases h
  | a :: as, b :: bs, c :: cs, h1, h2 => by
    by_cases hab : a.toNat < b.toNat
    · by_cases hbc : b.toNat < c.toNat
      · simp [charListLe, show a.toNat < c.toNat by omega]
      · by_cases hcb : c.toNat < b.toNat
        · simp [charListLe, hbc, hcb] at h2
        · simp [charListLe, show a.toNat < c.toNat by omega]
    · by_cases hba : b.toNat < a.toNat
      · simp [charListLe, hab, hba] at h1
      · by_cases hbc : b.toNat < c.toNat
        · simp [charListLe, show a.toNat < c.toNat by omega]
        · by_cases hcb : c.toNat < b.toNat
          · simp [charListLe, hbc, hcb] at h2
          · simp only [charListLe, if_neg hab, if_neg hba] at h1
            simp only [charListLe, if_neg hbc, if_neg hcb] at h2
            simp only [charListLe, if_neg (show ¬ a.toNat < c.toNat by omega),
              if_neg (show ¬ c.toNat < a.toNat by omega)]
            exact charListLe_trans h1 h2

theorem charListLe_antisymm : ∀ {as bs : List Char},
    charListLe as bs = true → charListLe bs as = true → as = bs
  | [], [], _, _ => rfl
  | [], _ :: _, _, h => by cases h
  | _ :: _, [], h, _ => by cases h
  | a :: as, b :: bs, h1, h2 => by
    by_cases hab : a.toNat < b.toNat
    · simp [charListLe, show ¬ b.toNat < a.toNat by omega, hab] at h2
    · by_cases hba : b.toNat < a.toNat
      · simp [charListLe, hab, hba] at h1
      · have hn : a.toNat = b.toNat := by omega
        have hc : a = b := Char.eq_of_val_eq (UInt32.toNat.inj hn)
        subst hc
        simp only [charListLe, if_neg hab, if_neg hba] at h1 h2
        rw [charListLe_antisymm h1 h2]

/-- The comparison relation of the `sort.Slice` call in
`writeFirmwareImage` from builder.go (`strings.Compare` on paths). -/
def pathLe (a b : FileEntry2) : Prop :=
  charListLe a.Path.toList b.Path.toList = true

instance : DecidableRel pathLe :=
  fun a b => inferInstanceAs (Decidable (_ = true))

instance : IsTotal FileEntry2 pathLe := ⟨fun a b => charListLe_total _ _⟩

instance : IsTrans FileEntry2 pathLe := ⟨fun _ _ _ h h2 => charListLe_trans h h2⟩

/-- The `sort.Slice` call of `writeFirmwareImage` from builder.go.  The
Go sort is unstable, but the manifest's paths are pairwise distinct (the
file map is keyed by path), so any correct sort produces this list. -/
def sortFiles (files : List FileEntry2) : List FileEntry2 :=
  List.insertionSort pathLe files

/-- The record loop of `writeFirmwareImage` from builder.go: per file, in
order, read its content from the filesystem (`fs`), append its record to
the buffer and its datafile tokens to the collected list; the first
unreadable file aborts with its path. -/
def imageRecords (fs : String → Option String) :
    List FileEntry2 → Except String (String × List String)
  | [] => .ok ("", [])
  | fe :: rest =>
    match fs (joinPath fe.Base fe.Path) with
    | none => .error ("open " ++ joinPath fe.Base fe.Path ++ ": no such file")
    | some content =>
      match imageRecords fs rest with
      | .error e => .error e
      | .ok (buf, dfs) => .ok (fileRecord fe.Path content ++ buf, fe.Datafiles ++ dfs)

/-- The trailing synthetic record of `writeFirmwareImage` from
builder.go: a record named `datafiles.json` whose content is the JSON
array of the collected datafile tokens. -/
def datafilesRecord (dfs : List String) : String :=
  fileRecord "datafiles.json" (goJSONStringArray dfs)

/-- The checksummed payload assembled in `imgBuf` by `writeFirmwareImage`
from builder.go: header block, one record per manifest file in sorted
path order, then the synthetic datafiles record. -/
def imagePayload (fs : String → Option String) (m : FirmwareManifest2) :
    Except String String :=
  match imageRecords fs (sortFiles m.Files) with
  | .error e => .error e
  | .ok (buf, dfs) => .ok (imageHeader m ++ buf ++ datafilesRecord dfs)

/-- `writeFirmwareImage` from builder.go as the content of the produced
image file: the checksum line (`sha1hex` models the SHA-1 hex digest)
followed by the entire payload it digests. -/
def writeFirmwareImage (sha1hex : String → String) (fs : String → Option String)
    (m : FirmwareManifest2) : Except String String :=
  match imagePayload fs m with
  | .error e => .error e
  | .ok payload => .ok ("Checksum: " ++ sha1hex payload ++ "\n" ++ payload)

/-- One serialised manifest file entry.  Modelled from the spec: the
manifest document serialisation (`utils.WriteJSON`) is an external
collaborator; per the spec the document holds the device identity plus
the ordered list of file entries, so the entry order of `Files` is
preserved verbatim. -/
def fileEntryJSON (fe : FileEntry2) : String :=
  "\x7b\"base\":" ++ goJSONString fe.Base ++ ",\"path\":" ++ goJSONString fe.Path ++
  ",\"hash\":" ++ goJSONString fe.Hash ++ ",\"Datafiles\":" ++
  goJSONStringArray fe.Datafiles ++ "\x7d"

/-- The manifest document written by `Build2`.  Modelled from the spec:
`utils.WriteJSON` is an external collaborator; the document carries the
device identity and the manifest's file list in its given order. -/
def manifestDoc (m : FirmwareManifest2) : String :=
  "\x7b\"name\":" ++ goJSONString m.Name ++ ",\"id\":" ++ goJSONString m.ID ++
  ",\"files\":[" ++ joinComma (m.Files.map fileEntryJSON) ++ "]\x7d"

/-- The per-device body of the `Build2` loop from builder.go, returning
the files written to the output directory together with the error, if
any: on a manifest-build failure nothing is written; on success the
manifest document is written first, then the image file is created and
(only when the whole payload was assembled) filled — a payload failure
leaves the just-created image file empty. -/
def processDevice (sha1hex : String → String)
    (globCompile : String → Option (String → Bool)) (fs : String → Option String)
    (allRoots : List (String × FirmwareRoot)) (deviceName : String)
    (fwDef : FirmwareDef2) : List (String × String) × Option String :=
  match buildDeviceFirmwareManifest globCompile allRoots deviceName fwDef with
  | .error e => ([], some e)
  | .ok m =>
    let mpath := joinPath "dist" (m.ID ++ ".json")
    let ipath := joinPath "dist" (m.ID ++ ".img")
    match writeFirmwareImage sha1hex fs m with
    | .error e => ([(mpath, manifestDoc m), (ipath, "")], some e)
    | .ok img => ([(mpath, manifestDoc m), (ipath, img)], none)

/-- `FileEntry` from builder.go (legacy LFS pipeline): file name and
content hash. -/
structure FileEntry where
  fileName : String
  hash : String
deriving DecidableEq

/-- Value of one hex digit, as decoded by Go's `encoding/hex`. -/
def hexVal (c : Char) : Option Nat :=
  if 48 ≤ c.toNat ∧ c.toNat ≤ 57 then some (c.toNat - 48)
  else if 97 ≤ c.toNat ∧ c.toNat ≤ 102 then some (c.toNat - 87)
  else if 65 ≤ c.toNat ∧ c.toNat ≤ 70 then some (c.toNat - 55)
  else none

/-- `hex.DecodeString` with its error ignored, as in the LFS branch of
`build()` in builder.go: bytes decoded up to the first invalid pair (an
odd trailing digit is dropped). -/
def hexDecodeL : List Char → List Nat
  | a :: b :: rest =>
    match hexVal a, hexVal b with
    | some x, some y => (16 * x + y) :: hexDecodeL rest
    | _, _ => []
  | _ => []

/-- The comparison relation of the `sort.Slice` call on `lfsEntries` in
`build()` from builder.go (`strings.Compare` on file names). -/
def entryLe (a b : FileEntry) : Prop :=
  charListLe a.fileName.toList b.fileName.toList = true

instance : DecidableRel entryLe :=
  fun a b => inferInstanceAs (Decidable (_ = true))

instance : IsTotal FileEntry entryLe := ⟨fun a b => charListLe_total _ _⟩

instance : IsTrans FileEntry entryLe := ⟨fun _ _ _ h h2 => charListLe_trans h h2⟩

/-- The sort of `lfsEntries` in `build()` from builder.go (unstable Go
sort; unique on entry lists with pairwise-distinct file names). -/
def lfsSortedEntries (entries : List FileEntry) : List FileEntry :=
  List.insertionSort entryLe entries

/-- The byte sequence fed to the SHA-1 hasher in the LFS branch of
`build()` from builder.go: the hex-decoded content hashes of the entries
in sorted file-name order, concatenated. -/
def lfsHasherInput (entries : List FileEntry) : List Nat :=
  ((lfsSortedEntries entries).map (fun e => hexDecodeL e.hash.toList)).flatten

/-- The cache key (cache file name) of the LFS image in `build()` from
builder.go: the image file name suffixed with the digest of the sorted
constituent hashes (`digest` models SHA-1-hex over bytes). -/
def lfsCacheKey (digest : List Nat → String) (imgFile : String)
    (entries : List FileEntry) : String :=
  imgFile ++ "." ++ digest (lfsHasherInput entries)

/-! ### Association-list lemmas -/

theorem alookup_append {α : Type} (l₁ l₂ : List (String × α)) (k : String) :
    alookup (l₁ ++ l₂) k =
      match alookup l₁ k with
      | some v => some v
      | none => alookup l₂ k := by
  induction l₁ with
  | nil => simp [alookup]
  | cons kv rest ih =>
    obtain ⟨k1, v1⟩ := kv
    by_cases h : k = k1
    · simp [alookup, h]
    · simp [alookup, h, ih]

theorem alookup_append_of_some {α : Type} {l₁ : List (String × α)}
    {k : String} {v : α} (l₂ : List (String × α)) (h : alookup l₁ k = some v) :
    alookup (l₁ ++ l₂) k = some v := by
  rw [alookup_append, h]

theorem alookup_append_of_none {α : Type} {l₁ : List (String × α)}
    {k : String} (l₂ : List (String × α)) (h : alookup l₁ k = none) :
    alookup (l₁ ++ l₂) k = alookup l₂ k := by
  rw [alookup_append, h]

theorem alookup_eq_none {α : Type} {l : List (String × α)} {k : String} :
    alookup l k = none ↔ k ∉ keys l := by
  induction l with
  | nil => simp [alookup, keys]
  | cons kv rest ih =>
    obtain ⟨k1, v1⟩ := kv
    by_cases h : k = k1
    · subst h
      simp [alookup, keys]
    · simp [alookup, h, keys, ih]

theorem alookup_some_mem {α : Type} {l : List (String × α)} {k : String} {v : α}
    (h : alookup l k = some v) : (k, v) ∈ l := by
  induction l with
  | nil => simp [alookup] at h
  | cons kv rest ih =>
    obtain ⟨k1, v1⟩ := kv
    by_cases hk : k = k1
    · subst hk
      simp [alookup] at h
      simp [h]
    · simp [alookup, hk] at h
      exact List.mem_cons_of_mem _ (ih h)

theorem mem_keys_of_alookup_some {α : Type} {l : List (String × α)} {k : String}
    {v : α} (h : alookup l k = some v) : k ∈ keys l := by
  by_contra hk
  rw [← alookup_eq_none] at hk
  rw [h] at hk
  cases hk

theorem keys_append {α : Type} (l₁ l₂ : List (String × α)) :
    keys (l₁ ++ l₂) = keys l₁ ++ keys l₂ := by
  simp [keys]

theorem alookup_none_append {α : Type} {l₁ l₂ : List (String × α)} {k : String}
    (h : alookup (l₁ ++ l₂) k = none) : alookup l₁ k = none := by
  cases hl : alookup l₁ k with
  | none => rfl
  | some v => rw [alookup_append_of_some _ hl] at h; cases h

/-! ### `FindInRoots` lemmas -/

theorem findInRoots_eq_none {f : String} {roots : List FirmwareRoot} :
    FindInRoots f roots = none ↔ ∀ r ∈ roots, alookup r.Files f = none := by
  induction roots with
  | nil => simp [FindInRoots]
  | cons r rest ih =>
    cases h : alookup r.Files f with
    | some v => simp [FindInRoots, h]
    | none => simp [FindInRoots, h, ih]

theorem findInRoots_some_mem {f : String} {roots : List FirmwareRoot}
    {e : FileEntry2} (he : FindInRoots f roots = some e) :
    ∃ r, r ∈ roots ∧ (f, e) ∈ r.Files := by
  induction roots with
  | nil => simp [FindInRoots] at he
  | cons r rest ih =>
    cases h : alookup r.Files f with
    | some v =>
      simp [FindInRoots, h] at he
      subst he
      exact ⟨r, List.mem_cons_self _ _, alookup_some_mem h⟩
    | none =>
      simp [FindInRoots, h] at he
      obtain ⟨r2, hr2, hm⟩ := ih he
      exact ⟨r2, List.mem_cons_of_mem _ hr2, hm⟩

theorem findInRoots_first {f : String} {pre : List FirmwareRoot}
    {r : FirmwareRoot} {post : List FirmwareRoot} {e : FileEntry2}
    (hpre : ∀ r2 ∈ pre, alookup r2.Files f = none)
    (hr : alookup r.Files f = some e) :
    FindInRoots f (pre ++ r :: post) = some e := by
  induction pre with
  | nil => simp [FindInRoots, hr]
  | cons p rest ih =>
    have hp := hpre p (List.mem_cons_self _ _)
    simp only [List.cons_append, FindInRoots, hp]
    exact ih (fun r2 h2 => hpre r2 (List.mem_cons_of_mem _ h2))

theorem mem_rootPaths {roots : List FirmwareRoot} {r : FirmwareRoot}
    {k : String} {v : FileEntry2} (hr : r ∈ roots) (hm : (k, v) ∈ r.Files) :
    k ∈ rootPaths roots := by
  simp only [rootPaths, List.mem_flatten, List.mem_map]
  refine ⟨keys r.Files, ⟨r, hr, rfl⟩, ?_⟩
  simp only [keys, List.mem_map]
  exact ⟨(k, v), hm, rfl⟩

/-! ### Counting lemmas for the resolver's termination measure -/

theorem countP_le_countP {α : Type} (L : List α) (p q : α → Bool)
    (h : ∀ a ∈ L, q a = true → p a = true) : L.countP q ≤ L.countP p := by
  induction L with
  | nil => simp
  | cons b rest ih =>
    rw [List.countP_cons, List.countP_cons]
    have hrest := ih (fun a ha => h a (List.mem_cons_of_mem _ ha))
    by_cases hq : q b = true
    · rw [if_pos hq, if_pos (h b (List.mem_cons_self _ _) hq)]
      omega
    · rw [if_neg hq]
      have hple : (if p b = true then 1 else 0) ≤ 1 := by split <;> omega
      omega

theorem countP_lt_countP {α : Type} {L : List α} {p q : α → Bool}
    (h : ∀ a ∈ L, q a = true → p a = true) {a : α} (ha : a ∈ L)
    (hp : p a = true) (hq : q a = false) : L.countP q < L.countP p := by
  induction L with
  | nil => cases ha
  | cons b rest ih =>
    rw [List.countP_cons, List.countP_cons]
    rcases List.mem_cons.mp ha with hab | hmem
    · subst hab
      have hle := countP_le_countP rest p q (fun x hx => h x (List.mem_cons_of_mem _ hx))
      have hqn : ¬ (q a = true) := by simp [hq]
      rw [if_pos hp, if_neg hqn]
      omega
    · have hlt := ih (fun x hx => h x (List.mem_cons_of_mem _ hx)) hmem
      have hb : (if q b = true then 1 else 0) ≤ (if p b = true then 1 else 0) := by
        by_cases hqb : q b = true
        · rw [if_pos hqb, if_pos (h b (List.mem_cons_self _ _) hqb)]
        · rw [if_neg hqb]
          split <;> omega
      omega

/-- Termination measure of the dependency resolver: the number of root
paths not yet recorded in the file map. -/
def remainingCount (roots : List FirmwareRoot) (fm : FileMap) : Nat :=
  (rootPaths roots).countP (fun p => (alookup fm p).isNone)

theorem remainingCount_le (roots : List FirmwareRoot) (fm : FileMap) :
    remainingCount roots fm ≤ (rootPaths roots).length :=
  List.countP_le_length _

/-- The resolver only ever grows the file map, by fresh keys taken from
the searched roots. -/
def Extends (roots : List FirmwareRoot) (fm fm2 : FileMap) : Prop :=
  ∃ ext, fm2 = fm ++ ext ∧
    (∀ kv ∈ ext, ∃ r ∈ roots, kv ∈ r.Files) ∧
    (∀ k ∈ keys ext, alookup fm k = none) ∧
    (keys ext).Nodup

theorem extends_refl (roots : List FirmwareRoot) (fm : FileMap) :
    Extends roots fm fm :=
  ⟨[], by simp, by simp, by simp [keys], by simp [keys]⟩

theorem extends_snoc {roots : List FirmwareRoot} {fm : FileMap} {k : String}
    {e : FileEntry2} {r : FirmwareRoot} (hr : r ∈ roots) (hm : (k, e) ∈ r.Files)
    (hnone : alookup fm k = none) : Extends roots fm (fm ++ [(k, e)]) := by
  refine ⟨[(k, e)], rfl, ?_, ?_, by simp [keys]⟩
  · intro kv hkv
    simp at hkv
    subst hkv
    exact ⟨r, hr, hm⟩
  · intro k2 hk2
    simp [keys] at hk2
    subst hk2
    exact hnone

theorem extends_lookup {roots : List FirmwareRoot} {fm fm2 : FileMap}
    (h : Extends roots fm fm2) {k : String} {v : FileEntry2}
    (hv : alookup fm k = some v) : alookup fm2 k = some v := by
  obtain ⟨ext, rfl, _, _, _⟩ := h
  exact alookup_append_of_some _ hv

theorem extends_none {roots : List FirmwareRoot} {fm fm2 : FileMap}
    (h : Extends roots fm fm2) {k : String}
    (hk : alookup fm2 k = none) : alookup fm k = none := by
  obtain ⟨ext, rfl, _, _, _⟩ := h
  exact alookup_none_append hk

theorem extends_trans {roots : List FirmwareRoot} {fm fm2 fm3 : FileMap}
    (h12 : Extends roots fm fm2) (h23 : Extends roots fm2 fm3) :
    Extends roots fm fm3 := by
  obtain ⟨e1, rfl, hm1, hf1, hn1⟩ := h12
  obtain ⟨e2, rfl, hm2, hf2, hn2⟩ := h23
  refine ⟨e1 ++ e2, by simp, ?_, ?_, ?_⟩
  · intro kv hkv
    rcases List.mem_append.mp hkv with h | h
    · exact hm1 kv h
    · exact hm2 kv h
  · intro k hk
    rw [keys_append] at hk
    rcases List.mem_append.mp hk with h | h
    · exact hf1 k h
    · exact alookup_none_append (hf2 k h)
  · rw [keys_append, List.nodup_append]
    refine ⟨hn1, hn2, ?_⟩
    intro k hk1 hk2
    have := hf2 k hk2
    rw [alookup_eq_none, keys_append] at this
    exact this (List.mem_append.mpr (Or.inr hk1))

theorem extends_nodup {roots : List FirmwareRoot} {fm fm2 : FileMap}
    (h : Extends roots fm fm2) (hn : (keys fm).Nodup) : (keys fm2).Nodup := by
  obtain ⟨ext, rfl, _, hf, hne⟩ := h
  rw [keys_append, List.nodup_append]
  refine ⟨hn, hne, ?_⟩
  intro k hk1 hk2
  have := hf k hk2
  rw [alookup_eq_none] at this
  exact this hk1

theorem remainingCount_le_of_extends {roots : List FirmwareRoot}
    {fm fm2 : FileMap} (h : Extends roots fm fm2) :
    remainingCount roots fm2 ≤ remainingCount roots fm := by
  apply countP_le_countP
  intro p _ hp
  simp only [Option.isNone_iff_eq_none] at hp ⊢
  exact extends_none h hp

theorem remainingCount_lt_snoc {roots : List FirmwareRoot} {fm : FileMap}
    {k : String} {e : FileEntry2} (hk : k ∈ rootPaths roots)
    (hnone : alookup fm k = none) :
    remainingCount roots (fm ++ [(k, e)]) < remainingCount roots fm := by
  refine countP_lt_countP ?_ hk ?_ ?_
  · intro p _ hp
    simp only [Option.isNone_iff_eq_none] at hp ⊢
    exact alookup_none_append hp
  · simp [hnone]
  · have : alookup (fm ++ [(k, e)]) k = some e := by
      rw [alookup_append_of_none _ hnone]
      simp [alookup]
    simp [this]

/-! ### Fuel adequacy of the dependency resolver -/

theorem addDeps_adequate (roots : List FirmwareRoot) (fuel : Nat)
    (IH : ∀ (m : String) (fm : FileMap), remainingCount roots fm < fuel →
      addFilesFromModuleF roots fuel m fm ≠ .outOfFuel ∧
      ∀ fm2, addFilesFromModuleF roots fuel m fm = .ok fm2 → Extends roots fm fm2) :
    ∀ (deps : List String) (entry : FileEntry2) (fm : FileMap),
      remainingCount roots fm < fuel →
      addDepsWith (addFilesFromModuleF roots fuel) entry deps fm ≠ .outOfFuel ∧
      ∀ fm2, addDepsWith (addFilesFromModuleF roots fuel) entry deps fm = .ok fm2 →
        Extends roots fm fm2 := by
  intro deps
  induction deps with
  | nil =>
    intro entry fm _
    constructor
    · simp [addDepsWith]
    · intro fm2 h
      simp [addDepsWith] at h
      subst h
      exact extends_refl roots _
  | cons dep rest ih =>
    intro entry fm hlt
    obtain ⟨hnf, hok⟩ := IH dep fm hlt
    cases hcall : addFilesFromModuleF roots fuel dep fm with
    | outOfFuel => exact absurd hcall hnf
    | err e =>
      constructor
      · simp [addDepsWith, hcall]
      · intro fm2 h
        simp [addDepsWith, hcall] at h
    | ok fm1 =>
      have hext1 := hok fm1 hcall
      have hlt1 : remainingCount roots fm1 < fuel :=
        lt_of_le_of_lt (remainingCount_le_of_extends hext1) hlt
      obtain ⟨hnf2, hok2⟩ := ih entry fm1 hlt1
      constructor
      · simp only [addDepsWith, hcall]
        exact hnf2
      · intro fm2 h
        simp only [addDepsWith, hcall] at h
        exact extends_trans hext1 (hok2 fm2 h)

theorem addF_adequate (roots : List FirmwareRoot) :
    ∀ (fuel : Nat) (m : String) (fm : FileMap),
      remainingCount roots fm < fuel →
      addFilesFromModuleF roots fuel m fm ≠ .outOfFuel ∧
      ∀ fm2, addFilesFromModuleF roots fuel m fm = .ok fm2 → Extends roots fm fm2 := by
  intro fuel
  induction fuel with
  | zero =>
    intro m fm hlt
    exact absurd hlt (Nat.not_lt_zero _)
  | succ fuel ih =>
    intro m fm hlt
    cases hmemo : alookup fm (Mod2File m) with
    | some v =>
      constructor
      · simp [addFilesFromModuleF, resolveStep, hmemo]
      · intro fm2 h
        simp [addFilesFromModuleF, resolveStep, hmemo] at h
        subst h
        exact extends_refl roots _
    | none =>
      cases hfind : FindInRoots (Mod2File m) roots with
      | none =>
        constructor
        · simp [addFilesFromModuleF, resolveStep, hmemo, hfind]
        · intro fm2 h
          simp [addFilesFromModuleF, resolveStep, hmemo, hfind] at h
      | some entry =>
        obtain ⟨r, hr, hmem⟩ := findInRoots_some_mem hfind
        have hsnoc : Extends roots fm (fm ++ [(Mod2File m, entry)]) :=
          extends_snoc hr hmem hmemo
        have hklt := remainingCount_lt_snoc (e := entry) (mem_rootPaths hr hmem) hmemo
        have hlt1 : remainingCount roots (fm ++ [(Mod2File m, entry)]) < fuel := by
          omega
        obtain ⟨hnf, hok⟩ :=
          addDeps_adequate roots fuel ih entry.Dependencies entry _ hlt1
        constructor
        · intro hbad
          apply hnf
          simpa [addFilesFromModuleF, resolveStep, hmemo, hfind] using hbad
        · intro fm2 h
          have h2 : addDepsWith (addFilesFromModuleF roots fuel) entry
              entry.Dependencies (fm ++ [(Mod2File m, entry)]) = .ok fm2 := by
            simpa [addFilesFromModuleF, resolveStep, hmemo, hfind] using h
          exact extends_trans hsnoc (hok fm2 h2)

theorem addFilesFromModule_ok_extends {roots : List FirmwareRoot} {m : String}
    {fm fm2 : FileMap} (h : AddFilesFromModule m roots fm = .ok fm2) :
    Extends roots fm fm2 := by
  have hade := (addF_adequate roots ((rootPaths roots).length + 1) m fm
    (Nat.lt_succ_of_le (remainingCount_le roots fm))).2
  unfold AddFilesFromModule at h
  cases hc : addFilesFromModuleF roots ((rootPaths roots).length + 1) m fm with
  | ok fmx =>
    rw [hc] at h
    simp at h
    subst h
    exact hade fmx hc
  | err e =>
    rw [hc] at h
    simp at h
  | outOfFuel =>
    rw [hc] at h
    simp at h

/-- **C1**: for every device and every set of entry modules, dependency
resolution terminates even on cyclic or diamond-shaped declared
dependency graphs (the fuelled resolver never exhausts the fuel bound
`AddFilesFromModule` runs it with); once a module's path is present in
the file map, resolving that module again returns the map unchanged
immediately; and the accumulated file map keeps exactly one entry per
resolved module path (duplicate-free keys are preserved). -/
theorem C1_addFilesFromModule_closure (roots : List FirmwareRoot)
    (m : String) (fm : FileMap) :
    addFilesFromModuleF roots ((rootPaths roots).length + 1) m fm ≠ .outOfFuel ∧
    ((alookup fm (Mod2File m)).isSome → AddFilesFromModule m roots fm = .ok fm) ∧
    (∀ fm2, AddFilesFromModule m roots fm = .ok fm2 →
      (keys fm).Nodup → (keys fm2).Nodup) := by
  refine ⟨(addF_adequate roots _ m fm
    (Nat.lt_succ_of_le (remainingCount_le roots fm))).1, ?_, ?_⟩
  · intro hsome
    cases hm : alookup fm (Mod2File m) with
    | none => rw [hm] at hsome; cases hsome
    | some v =>
      unfold AddFilesFromModule
      simp [addFilesFromModuleF, resolveStep, hm]
  · intro fm2 hok hnd
    exact extends_nodup (addFilesFromModule_ok_extends hok) hnd

/-- Concrete cyclic dependency graph: module a requires b, b requires a. -/
def cycA : FileEntry2 := ⟨"firmware", "a.lua", "ha", ["b"], []⟩

/-- Second node of the concrete cycle. -/
def cycB : FileEntry2 := ⟨"firmware", "b.lua", "hb", ["a"], []⟩

/-- A single root holding the two-module cycle. -/
def cycRoots : List FirmwareRoot :=
  [⟨"firmware", [("a.lua", cycA), ("b.lua", cycB)]⟩]

/-- Witness for C1 on the concrete cycle: re-resolving an
already-recorded module returns the map unchanged, and the resolved set
for the cycle holds exactly the entries a.lua and b.lua, each once. -/
theorem C1_witness :
    AddFilesFromModule "a" cycRoots [("a.lua", cycA)] = .ok [("a.lua", cycA)] ∧
    AddFilesFromModule "a" cycRoots [] = .ok [("a.lua", cycA), ("b.lua", cycB)] ∧
    (keys [("a.lua", cycA), ("b.lua", cycB)]).Nodup :=
  ⟨(C1_addFilesFromModule_closure cycRoots "a" [("a.lua", cycA)]).2.1 (by decide),
   by rfl,
   (C1_addFilesFromModule_closure cycRoots "a" []).2.2
     [("a.lua", cycA), ("b.lua", cycB)] (by rfl) (by decide)⟩

/-! ### C2: search-order precedence -/

/-- **C2**: a module name resolvable in more than one searched root
resolves to the entry of the earliest root of the device's ordered root
list (first conjunct); that list is exactly the device's `IncludeLua`
libraries in declared order followed by the shared core root (second
conjunct); in particular a module present both in the device's
first-declared library and elsewhere (e.g. the core root) resolves to
the library's entry (third conjunct). -/
theorem C2_search_order (allRoots : List (String × FirmwareRoot))
    (libs : List LibDef) (rootsList : List FirmwareRoot) (f : String) :
    (∀ (pre post : List FirmwareRoot) (r : FirmwareRoot) (e : FileEntry2),
      rootsList = pre ++ r :: post →
      (∀ r2 ∈ pre, alookup r2.Files f = none) →
      alookup r.Files f = some e →
      FindInRoots f rootsList = some e) ∧
    (getDeviceFirmwareRoots allRoots libs = .ok rootsList →
      ∃ rs, libRootsOf allRoots libs = .ok rs ∧
        rootsList = rs ++ [(alookup allRoots "firmware").getD emptyRoot]) ∧
    (∀ (L : LibDef) (rest : List LibDef) (lr : FirmwareRoot) (e : FileEntry2),
      libs = L :: rest →
      L.IncludeLua = true →
      alookup allRoots (joinPath "site/lib" L.Name) = some lr →
      getDeviceFirmwareRoots allRoots libs = .ok rootsList →
      alookup lr.Files f = some e →
      FindInRoots f rootsList = some e) := by
  refine ⟨?_, ?_, ?_⟩
  · intro pre post r e hsplit hpre hr
    subst hsplit
    exact findInRoots_first hpre hr
  · intro hok
    unfold getDeviceFirmwareRoots at hok
    cases hlr : libRootsOf allRoots libs with
    | error e => rw [hlr] at hok; cases hok
    | ok rs =>
      rw [hlr] at hok
      simp at hok
      exact ⟨rs, rfl, hok.symm⟩
  · intro L rest lr e hlibs hinc hlook hok hf
    subst hlibs
    unfold getDeviceFirmwareRoots at hok
    cases hrest : libRootsOf allRoots rest with
    | error msg =>
      have : libRootsOf allRoots (L :: rest) = .error msg := by
        simp [libRootsOf, hinc, hlook, hrest]
      rw [this] at hok
      cases hok
    | ok rs =>
      have hall : libRootsOf allRoots (L :: rest) = .ok (lr :: rs) := by
        simp [libRootsOf, hinc, hlook, hrest]
      rw [hall] at hok
      simp at hok
      rw [← hok]
      simp [FindInRoots, hf]

/-- Concrete library entry for the C2 witness. -/
def w2LibEntry : FileEntry2 := ⟨"site/lib/mylib", "util.lua", "hlib", [], []⟩

/-- Concrete core entry for the C2 witness (same path, different hash). -/
def w2CoreEntry : FileEntry2 := ⟨"firmware", "util.lua", "hcore", [], []⟩

/-- Indexed roots for the C2 witness: the module path exists both in the
device's first-declared library and in the shared core root. -/
def w2AllRoots : List (String × FirmwareRoot) :=
  [("firmware", ⟨"firmware", [("util.lua", w2CoreEntry)]⟩),
   ("site/lib/mylib", ⟨"site/lib/mylib", [("util.lua", w2LibEntry)]⟩)]

/-- Library list for the C2 witness. -/
def w2Libs : List LibDef := [⟨"mylib", true, []⟩]

/-- The root list the C2 witness resolves against. -/
def w2Roots : List FirmwareRoot :=
  [⟨"site/lib/mylib", [("util.lua", w2LibEntry)]⟩,
   ⟨"firmware", [("util.lua", w2CoreEntry)]⟩]

/-- Witness for C2: with `util.lua` present in both the first-declared
library and the core root, resolution picks the library's entry. -/
theorem C2_witness : FindInRoots "util.lua" w2Roots = some w2LibEntry :=
  (C2_search_order w2AllRoots w2Libs w2Roots "util.lua").2.2
    ⟨"mylib", true, []⟩ [] ⟨"site/lib/mylib", [("util.lua", w2LibEntry)]⟩
    w2LibEntry rfl rfl (by decide) (by rfl) (by decide)

/-! ### C3: the device-specific overlay wins -/

theorem setk_lookup_self (fm : FileMap) (k : String) (v : FileEntry2) :
    alookup (setk fm k v) k = some v := by
  induction fm with
  | nil => simp [setk, alookup]
  | cons kv rest ih =>
    obtain ⟨k1, v1⟩ := kv
    by_cases hk : k1 = k
    · simp [setk, hk, alookup]
    · have hne : ¬ (k = k1) := fun hc => hk hc.symm
      simp [setk, hk, alookup, hne, ih]

theorem setk_lookup_other (fm : FileMap) {k k2 : String} (v : FileEntry2)
    (hne : k2 ≠ k) : alookup (setk fm k v) k2 = alookup fm k2 := by
  induction fm with
  | nil => simp [setk, alookup, hne]
  | cons kv rest ih =>
    obtain ⟨k1, v1⟩ := kv
    by_cases hk : k1 = k
    · subst hk
      simp [setk, alookup, hne]
    · by_cases hk2 : k2 = k1
      · simp [setk, hk, alookup, hk2]
      · simp [setk, hk, alookup, hk2, ih]

theorem setk_mem (fm : FileMap) (k : String) (v : FileEntry2) :
    ∀ kv ∈ setk fm k v, kv ∈ fm ∨ kv = (k, v) := by
  induction fm with
  | nil => simp [setk]
  | cons kv0 rest ih =>
    obtain ⟨k1, v1⟩ := kv0
    by_cases hk : k1 = k
    · intro kv hkv
      simp only [setk, if_pos hk] at hkv
      rcases List.mem_cons.mp hkv with h | h
      · exact Or.inr h
      · exact Or.inl (List.mem_cons_of_mem _ h)
    · intro kv hkv
      simp only [setk, if_neg hk] at hkv
      rcases List.mem_cons.mp hkv with h | h
      · exact Or.inl (h ▸ List.mem_cons_self _ _)
      · rcases ih kv h with h2 | h2
        · exact Or.inl (List.mem_cons_of_mem _ h2)
        · exact Or.inr h2

/-- The overlay fold of `AddDeviceSpecificFiles` leaves a key untouched
when no overlaid file carries it as its path. -/
theorem overlay_preserve (files : List (String × FileEntry2)) (fm : FileMap)
    (p : String) (h : ∀ kv ∈ files, kv.2.Path ≠ p) :
    alookup (files.foldl (fun acc kv => setk acc kv.2.Path kv.2) fm) p =
      alookup fm p := by
  induction files generalizing fm with
  | nil => rfl
  | cons kv rest ih =>
    simp only [List.foldl_cons]
    rw [ih _ (fun kv2 h2 => h kv2 (List.mem_cons_of_mem _ h2))]
    exact setk_lookup_other fm kv.2 (fun hc => h kv (List.mem_cons_self _ _) hc.symm)

/-- General form of the overlay fold: a path present in the overlaid
file list ends up mapped to that list's entry. -/
theorem overlay_lookup (files : List (String × FileEntry2)) (fm : FileMap)
    (p : String) (e : FileEntry2)
    (hkeyed : ∀ kv ∈ files, kv.1 = kv.2.Path)
    (hnd : (files.map (fun kv => kv.2.Path)).Nodup)
    (hin : alookup files p = some e) :
    alookup (files.foldl (fun acc kv => setk acc kv.2.Path kv.2) fm) p = some e := by
  induction files generalizing fm with
  | nil => simp [alookup] at hin
  | cons kv rest ih =>
    obtain ⟨k1, v1⟩ := kv
    simp only [List.map_cons, List.nodup_cons] at hnd
    by_cases hk : p = k1
    · have hv : v1 = e := by simpa [alookup, hk] using hin
      have hp : v1.Path = p := by
        have h1 := hkeyed (k1, v1) (List.mem_cons_self _ _)
        simp at h1
        rw [← h1, hk]
      simp only [List.foldl_cons]
      rw [overlay_preserve]
      · rw [hp, hv]
        exact setk_lookup_self fm p e
      · intro kv2 h2 hc
        apply hnd.1
        rw [hp, ← hc]
        exact List.mem_map_of_mem _ h2
    · have hin2 : alookup rest p = some e := by
        simpa [alookup, hk] using hin
      simp only [List.foldl_cons]
      exact ih _ (fun kv2 h2 => hkeyed kv2 (List.mem_cons_of_mem _ h2)) hnd.2 hin2

/-- **C3**: for every relative path present both in the accumulated file
map of the earlier stages and in the device's own root, the file map
after `AddDeviceSpecificFiles` maps that path to the device root's entry
(and hence its content hash): the device overlay unconditionally
overwrites same-path entries.  The two well-formedness hypotheses hold
for every root built by `AddRoot`: entries are keyed by their own path
and a root's paths are unique. -/
theorem C3_device_overlay_wins (deviceRoot : FirmwareRoot) (fileMap : FileMap)
    (p : String) (e : FileEntry2)
    (hkeyed : ∀ kv ∈ deviceRoot.Files, kv.1 = kv.2.Path)
    (hnd : (deviceRoot.Files.map (fun kv => kv.2.Path)).Nodup)
    (hin : alookup deviceRoot.Files p = some e) :
    alookup (AddDeviceSpecificFiles deviceRoot fileMap) p = some e :=
  overlay_lookup deviceRoot.Files fileMap p e hkeyed hnd hin

/-- Device root for the C3 witness. -/
def w3DevEntry : FileEntry2 := ⟨"site/devices/d", "init.lua", "hdev", [], []⟩

/-- A stale entry for the same path, from an earlier stage. -/
def w3OldEntry : FileEntry2 := ⟨"site/lib/l", "init.lua", "hlib", [], []⟩

/-- Witness for C3: the overlay replaces the earlier same-path entry with
the device root's entry. -/
theorem C3_witness :
    alookup (AddDeviceSpecificFiles ⟨"site/devices/d", [("init.lua", w3DevEntry)]⟩
      [("init.lua", w3OldEntry)]) "init.lua" = some w3DevEntry :=
  C3_device_overlay_wins ⟨"site/devices/d", [("init.lua", w3DevEntry)]⟩
    [("init.lua", w3OldEntry)] "init.lua" w3DevEntry
    (by decide) (by decide) (by decide)

/-! ### C9: the LFS cache key is a pure function of the hash set -/

/-- Two lists of LFS entries that are permutations of each other, both
sorted by file name, and with pairwise-distinct file names, are equal. -/
theorem sorted_perm_nodup_eq :
    ∀ {l1 l2 : List FileEntry}, l1.Perm l2 → l1.Sorted entryLe →
      l2.Sorted entryLe → (l1.map FileEntry.fileName).Nodup → l1 = l2 := by
  intro l1
  induction l1 with
  | nil =>
    intro l2 hp _ _ _
    exact hp.nil_eq
  | cons a t1 ih =>
    intro l2 hp hs1 hs2 hnd
    cases l2 with
    | nil => exact absurd hp.symm (by simp)
    | cons b t2 =>
      have hab : a = b := by
        rcases List.mem_cons.mp (hp.mem_iff.mp (List.mem_cons_self a t1)) with h | hat2
        · exact h
        · rcases List.mem_cons.mp (hp.symm.mem_iff.mp (List.mem_cons_self b t2)) with h | hbt1
          · exact h.symm
          · have hba : entryLe b a := List.rel_of_sorted_cons hs2 a hat2
            have hab2 : entryLe a b := List.rel_of_sorted_cons hs1 b hbt1
            have hfn : a.fileName = b.fileName := by
              have h0 := charListLe_antisymm hab2 hba
              exact String.ext (by simpa [String.toList] using h0)
            simp only [List.map_cons, List.nodup_cons] at hnd
            exact absurd (hfn ▸ List.mem_map_of_mem FileEntry.fileName hbt1) hnd.1
      subst hab
      have ht : t1.Perm t2 := hp.cons_inv
      have hndt : (t1.map FileEntry.fileName).Nodup := by
        simp only [List.map_cons, List.nodup_cons] at hnd
        exact hnd.2
      rw [ih ht hs1.of_cons hs2.of_cons hndt]

/-- **C9**: the LFS build-cache key is a pure function of the set of
entries being bundled: it digests the constituent content hashes in
sorted file-name order, so any two encounter orders of the same
entry set (with pairwise-distinct file names, as produced by the
per-library file maps) yield the same key. -/
theorem C9_cache_key_pure (digest : List Nat → String) (imgFile : String)
    (l1 l2 : List FileEntry) (hperm : l1.Perm l2)
    (hnd : (l1.map FileEntry.fileName).Nodup) :
    lfsCacheKey digest imgFile l1 = lfsCacheKey digest imgFile l2 := by
  have hsorteq : lfsSortedEntries l1 = lfsSortedEntries l2 := by
    apply sorted_perm_nodup_eq
    · exact (List.perm_insertionSort entryLe l1).trans
        (hperm.trans (List.perm_insertionSort entryLe l2).symm)
    · exact List.sorted_insertionSort entryLe l1
    · exact List.sorted_insertionSort entryLe l2
    · exact (((List.perm_insertionSort entryLe l1).map FileEntry.fileName).nodup_iff).mpr hnd
  unfold lfsCacheKey lfsHasherInput
  rw [hsorteq]

/-- First LFS entry of the C9 witness. -/
def w9a : FileEntry := ⟨"/core/x.lua", "0a12"⟩

/-- Second LFS entry of the C9 witness. -/
def w9b : FileEntry := ⟨"/lib/y.lua", "ff01"⟩

/-- Witness for C9: the two encounter orders of the same entry set give
the same cache key, for a concrete digest function. -/
theorem C9_witness :
    lfsCacheKey (fun bs => String.join (bs.map hexByte)) "/dev1-lfs.img" [w9a, w9b] =
    lfsCacheKey (fun bs => String.join (bs.map hexByte)) "/dev1-lfs.img" [w9b, w9a] :=
  C9_cache_key_pure (fun bs => String.join (bs.map hexByte)) "/dev1-lfs.img"
    [w9a, w9b] [w9b, w9a] (List.Perm.swap w9b w9a []) (by decide)

/-! ### C4: image bytes depend on the datafile-token collection order -/

/-- Device script entry as indexed when the Go runtime iterates the
scanned datafile-token map (`for df := range dfMap` in
`ReadDependenciesAndDatafiles`) in the order a, b. -/
def w4Entry1 : FileEntry2 :=
  ⟨"site/devices/d", "init.lua", "h1", [], ["a", "b"]⟩

/-- The same entry when the runtime iterates the same token map in the
order b, a (Go map iteration order is unspecified and varies between
runs). -/
def w4Entry2 : FileEntry2 :=
  ⟨"site/devices/d", "init.lua", "h1", [], ["b", "a"]⟩

/-- The byte-identical input tree of the C4 counter-run: one device
script declaring the two datafile tokens. -/
def w4fs : String → Option String := fun p =>
  if p = "site/devices/d/init.lua" then
    some "-- datafile: a\n-- datafile: b\n"
  else none

/-- Manifest produced by the first run. -/
def w4m1 : FirmwareManifest2 := ⟨"Dev", "d1", [w4Entry1]⟩

/-- Manifest produced by the second run over the same bytes. -/
def w4m2 : FirmwareManifest2 := ⟨"Dev", "d1", [w4Entry2]⟩

/-- A stand-in digest of the correct SHA-1-hex output length. -/
def w4digest : String → String :=
  fun _ => "da39a3ee5e6b4b0d3255bfef95601890afd80709"

set_option maxRecDepth 4096 in
/-- **C4** (code bug): the image payload — and with it the image file and
its checksum — depends on the order in which the datafile tokens of one
script are collected, although that order is Go map iteration order and
thus varies between runs over byte-identical input trees.  The two
`Datafiles` fields below are permutations of one and the same scanned
token set `{a, b}`, yet the payloads and the image files differ:
`writeFirmwareImage` sorts the manifest's files (its comment says: to
avoid variations in order that would affect the checksum) but never
sorts the collected datafile tokens before serialising `datafiles.json`. -/
theorem C4_datafile_order_leaks :
    w4Entry1.Datafiles.Perm w4Entry2.Datafiles ∧
    imagePayload w4fs w4m1 ≠ imagePayload w4fs w4m2 ∧
    writeFirmwareImage w4digest w4fs w4m1 ≠ writeFirmwareImage w4digest w4fs w4m2 := by
  refine ⟨List.Perm.swap "b" "a" [], ?_, ?_⟩
  · intro h
    have h2 : (imagePayload w4fs w4m1).toOption = (imagePayload w4fs w4m2).toOption := by
      rw [h]
    revert h2
    decide
  · intro h
    have h2 : (writeFirmwareImage w4digest w4fs w4m1).toOption =
        (writeFirmwareImage w4digest w4fs w4m2).toOption := by
      rw [h]
    revert h2
    decide

/-! ### C5: the manifest document is not sorted; the image packer sorts -/

/-- Core entry a.lua for the C5 run. -/
def w5eA : FileEntry2 := ⟨"firmware", "a.lua", "ha", [], []⟩

/-- Core entry b.lua for the C5 run. -/
def w5eB : FileEntry2 := ⟨"firmware", "b.lua", "hb", [], []⟩

/-- Indexed roots of the C5 run. -/
def w5AllRoots : List (String × FirmwareRoot) :=
  [("firmware", ⟨"firmware", [("a.lua", w5eA), ("b.lua", w5eB)]⟩),
   ("site/devices/d", ⟨"site/devices/d", []⟩)]

/-- Device definition of the C5 run: entry modules declared as b, a. -/
def w5fw : FirmwareDef2 := ⟨"Dev", "d", [], [⟨"b", false⟩, ⟨"a", false⟩]⟩

/-- Glob compiler stub (no include patterns are declared). -/
def w5glob : String → Option (String → Bool) := fun _ => none

/-- **C5 counterexample**: the file list of the built manifest — the list
`Build2` serialises into the manifest document before `writeFirmwareImage`
sorts it — is in file-map iteration order, here b.lua before a.lua, which
is not lexicographic path order; so the manifest document's ordering does
depend on module order. -/
theorem C5_counterexample :
    (buildDeviceFirmwareManifest w5glob w5AllRoots "d" w5fw).toOption.map
      (fun m => m.Files.map FileEntry2.Path) = some ["b.lua", "a.lua"] ∧
    ¬ List.Pairwise (fun a b : String => charListLe a.toList b.toList = true)
      ["b.lua", "a.lua"] := by
  constructor
  · rfl
  · intro h
    exact absurd ((List.pairwise_cons.mp h).1 "a.lua" (by simp)) (by decide)

/-- **C5 amended**: the manifest document's file list is the device file
map in iteration order, unsorted; the lexicographic-by-path sort happens
only in the image packer (`writeFirmwareImage`), whose sorted file list
feeds the image records. -/
theorem C5_amended_sort_location (m : FirmwareManifest2) :
    List.Sorted pathLe (sortFiles m.Files) ∧
    (∀ (gc : String → Option (String → Bool))
      (allRoots : List (String × FirmwareRoot)) (deviceName : String)
      (fwDef : FirmwareDef2) (fm : FileMap),
      deviceFileMap gc allRoots deviceName fwDef = .ok fm →
      buildDeviceFirmwareManifest gc allRoots deviceName fwDef =
        .ok { Name := fwDef.Name, ID := fwDef.ID, Files := fm.map Prod.snd }) := by
  constructor
  · exact List.sorted_insertionSort pathLe m.Files
  · intro gc allRoots deviceName fwDef fm h
    unfold buildDeviceFirmwareManifest
    rw [h]

/-- Witness for the amended C5 on the concrete run: the image packer's
sorted list is sorted, while the manifest document's list is the
iteration-order list `[w5eB, w5eA]`. -/
theorem C5_witness :
    List.Sorted pathLe (sortFiles (FirmwareManifest2.mk "Dev" "d" [w5eB, w5eA]).Files) ∧
    buildDeviceFirmwareManifest w5glob w5AllRoots "d" w5fw =
      .ok { Name := "Dev", ID := "d", Files := [w5eB, w5eA] } :=
  ⟨(C5_amended_sort_location ⟨"Dev", "d", [w5eB, w5eA]⟩).1,
   (C5_amended_sort_location ⟨"Dev", "d", [w5eB, w5eA]⟩).2 w5glob w5AllRoots "d" w5fw
     [("b.lua", w5eB), ("a.lua", w5eA)] (by rfl)⟩

/-! ### C6: the image file format -/

/-- Concatenation of a list of byte strings, in order. -/
def concatAll : List String → String
  | [] => ""
  | s :: rest => s ++ concatAll rest

/-- Closed form of the record loop: on success the buffer is the
concatenation of one record per file, in the given order, and the
collected datafile tokens are the per-file token lists flattened, in the
same order. -/
theorem imageRecords_closed (fs : String → Option String) :
    ∀ (files : List FileEntry2) (recs : String) (dfs : List String),
      imageRecords fs files = .ok (recs, dfs) →
      recs = concatAll (files.map
        (fun fe => fileRecord fe.Path ((fs (joinPath fe.Base fe.Path)).getD ""))) ∧
      dfs = (files.map FileEntry2.Datafiles).flatten := by
  intro files
  induction files with
  | nil =>
    intro recs dfs h
    simp [imageRecords] at h
    simp [h.1, h.2, concatAll]
  | cons fe rest ih =>
    intro recs dfs h
    cases hfs : fs (joinPath fe.Base fe.Path) with
    | none => simp [imageRecords, hfs] at h
    | some content =>
      cases hrec : imageRecords fs rest with
      | error e => simp [imageRecords, hfs, hrec] at h
      | ok pr =>
        obtain ⟨buf, dfs2⟩ := pr
        simp only [imageRecords, hfs, hrec, Except.ok.injEq, Prod.mk.injEq] at h
        obtain ⟨hr, hd⟩ := h
        obtain ⟨ih1, ih2⟩ := ih buf dfs2 hrec
        subst hr hd
        constructor
        · simp [concatAll, hfs, ih1]
        · simp [ih2]

/-- The record loop succeeds whenever every listed file is readable. -/
theorem imageRecords_ok_of_readable (fs : String → Option String) :
    ∀ (files : List FileEntry2),
      (∀ fe ∈ files, (fs (joinPath fe.Base fe.Path)).isSome) →
      ∃ recs dfs, imageRecords fs files = .ok (recs, dfs) := by
  intro files
  induction files with
  | nil => exact fun _ => ⟨"", [], rfl⟩
  | cons fe rest ih =>
    intro hread
    cases hfs : fs (joinPath fe.Base fe.Path) with
    | none =>
      have := hread fe (List.mem_cons_self _ _)
      rw [hfs] at this
      cases this
    | some content =>
      obtain ⟨recs, dfs, hr⟩ := ih (fun fe2 h2 => hread fe2 (List.mem_cons_of_mem _ h2))
      exact ⟨fileRecord fe.Path content ++ recs, fe.Datafiles ++ dfs, by
        simp [imageRecords, hfs, hr]⟩

/-- **C6**: a successfully packed image consists of a leading checksum
line holding the digest of the entire following payload; the payload
opens with the textual header (format version tag, device id, device
name, total record count = file count + 1), continues with one record
per manifest file — path line, byte-length line, raw content — in
lexicographic path order, and closes with the synthetic trailing
`datafiles.json` record whose content is the JSON array of every
collected datafile token, the literal `[]` (never null) when none
exist. -/
theorem C6_image_format (sha1hex : String → String) (fs : String → Option String)
    (m : FirmwareManifest2) (img : String)
    (h : writeFirmwareImage sha1hex fs m = .ok img) :
    ∃ recs dfs,
      imageRecords fs (sortFiles m.Files) = .ok (recs, dfs) ∧
      img = "Checksum: " ++ sha1hex (imageHeader m ++ recs ++ datafilesRecord dfs) ++
        "\n" ++ (imageHeader m ++ recs ++ datafilesRecord dfs) ∧
      imageHeader m = "Version: 1 -- HomeNode Device Image File\n" ++
        "Device Id: " ++ m.ID ++ "\n" ++ "Device Name: " ++ m.Name ++ "\n" ++
        "Total files: " ++ toString (m.Files.length + 1) ++ "\n" ++ "\n" ∧
      List.Sorted pathLe (sortFiles m.Files) ∧
      (sortFiles m.Files).Perm m.Files ∧
      recs = concatAll ((sortFiles m.Files).map
        (fun fe => fileRecord fe.Path ((fs (joinPath fe.Base fe.Path)).getD ""))) ∧
      (∀ path content, fileRecord path content =
        path ++ "\n" ++ toString content.utf8ByteSize ++ "\n" ++ content) ∧
      dfs = ((sortFiles m.Files).map FileEntry2.Datafiles).flatten ∧
      datafilesRecord dfs = "datafiles.json\n" ++
        toString (goJSONStringArray dfs).utf8ByteSize ++ "\n" ++ goJSONStringArray dfs ∧
      (dfs = [] → goJSONStringArray dfs = "[]") := by
  unfold writeFirmwareImage imagePayload at h
  cases hrec : imageRecords fs (sortFiles m.Files) with
  | error e => rw [hrec] at h; cases h
  | ok pr =>
    obtain ⟨recs, dfs⟩ := pr
    rw [hrec] at h
    simp only [] at h
    refine ⟨recs, dfs, rfl, ?_, rfl, List.sorted_insertionSort pathLe m.Files,
      List.perm_insertionSort pathLe m.Files,
      (imageRecords_closed fs _ recs dfs hrec).1, ?_,
      (imageRecords_closed fs _ recs dfs hrec).2, rfl, ?_⟩
    · cases h
      rfl
    · intro path content
      rfl
    · intro hnil
      subst hnil
      rfl

/-- Manifest file of the C6 witness. -/
def w6Entry : FileEntry2 := ⟨"firmware", "init.lua", "h6", [], []⟩

/-- Manifest of the C6 witness. -/
def w6m : FirmwareManifest2 := ⟨"Dev6", "d6", [w6Entry]⟩

/-- Filesystem of the C6 witness. -/
def w6fs : String → Option String := fun p =>
  if p = "firmware/init.lua" then some "print(1)\n" else none

/-- Stand-in digest of the C6 witness. -/
def w6digest : String → String :=
  fun _ => "0000000000000000000000000000000000000000"

/-- The image the C6 witness run produces. -/
def w6img : String :=
  ((writeFirmwareImage w6digest w6fs w6m).toOption).getD ""

/-- Witness for C6 on a concrete one-file device: the produced image is
the checksum line over the payload followed by that payload. -/
theorem C6_witness :
    ∃ recs dfs,
      imageRecords w6fs (sortFiles w6m.Files) = .ok (recs, dfs) ∧
      w6img = "Checksum: " ++
        w6digest (imageHeader w6m ++ recs ++ datafilesRecord dfs) ++ "\n" ++
        (imageHeader w6m ++ recs ++ datafilesRecord dfs) := by
  obtain ⟨recs, dfs, h1, h2, _⟩ := C6_image_format w6digest w6fs w6m w6img (by rfl)
  exact ⟨recs, dfs, h1, h2⟩

/-! ### C7: the missing-module error -/

/-- Substring test (over character lists), used to reason about the
contents of error messages. -/
def strContains (hay needle : String) : Bool :=
  (List.range (hay.toList.length + 1)).any
    (fun i => decide (((hay.toList.drop i).take needle.toList.length) = needle.toList))

theorem toList_append (s t : String) : (s ++ t).toList = s.toList ++ t.toList := by
  cases s with
  | mk d1 =>
    cases t with
    | mk d2 => rfl

theorem strContains_of_split {hay needle : String} (pre post : List Char)
    (h : hay.toList = pre ++ needle.toList ++ post) :
    strContains hay needle = true := by
  unfold strContains
  rw [List.any_eq_true]
  refine ⟨pre.length, ?_, ?_⟩
  · rw [List.mem_range, h]
    simp only [List.length_append]
    omega
  · rw [decide_eq_true_eq, h, List.append_assoc, List.drop_left, List.take_left]

/-- Indexed roots of the C7 run: an empty core root and the device's own
(also empty) root. -/
def w7AllRoots : List (String × FirmwareRoot) :=
  [("firmware", ⟨"firmware", []⟩),
   ("site/devices/mydevice", ⟨"site/devices/mydevice", []⟩)]

/-- Device definition of the C7 run: one entry module with no file in
any searched root. -/
def w7fw : FirmwareDef2 := ⟨"My Device", "dev1", [], [⟨"missing.module", false⟩]⟩

/-- Glob compiler stub for the C7 run (no include patterns declared). -/
def w7glob : String → Option (String → Bool) := fun _ => none

/-- The error message the C7 run produces. -/
def w7msg : String :=
  "Cannot add files from module missing.module: Error finding missing/module.lua: Cannot find file in firmware roots"

/-- **C7 counterexample**: for the device `mydevice` with entry module
`missing.module` absent from every searched root, the build fails with
the wrapped file-not-found error — but that error names only the module
(dotted name and derived path), not the device being built: the
per-module wrap in `buildDeviceFirmwareManifest` interpolates
`modDef.Name` only, unlike the device-naming wraps of the neighbouring
error paths. -/
theorem C7_counterexample :
    buildDeviceFirmwareManifest w7glob w7AllRoots "mydevice" w7fw = .error w7msg ∧
    strContains w7msg "mydevice" = false := by
  constructor
  · rfl
  · rfl

set_option maxHeartbeats 1000000 in
/-- **C7 amended**: a device whose first entry module has no file in any
searched root fails with the `ErrFileEntryNotFound`-derived error naming
the missing module — both its dotted name and its derived script path —
(the device name is not part of this message), and no manifest document
or image file is written for that device. -/
theorem C7_amended_missing_module (sha1hex : String → String)
    (gc : String → Option (String → Bool)) (fs : String → Option String)
    (allRoots : List (String × FirmwareRoot)) (deviceName : String)
    (fwDef : FirmwareDef2) (md : ModuleDef) (rest : List ModuleDef)
    (roots : List FirmwareRoot)
    (hmods : fwDef.Modules = md :: rest)
    (hroots : getDeviceFirmwareRoots allRoots fwDef.Libs = .ok roots)
    (hmiss : FindInRoots (Mod2File md.Name) roots = none) :
    ∃ msg,
      buildDeviceFirmwareManifest gc allRoots deviceName fwDef = .error msg ∧
      strContains msg md.Name = true ∧
      strContains msg (Mod2File md.Name) = true ∧
      processDevice sha1hex gc fs allRoots deviceName fwDef = ([], some msg) := by
  have hadd : AddFilesFromModule md.Name roots [] =
      .error ("Error finding " ++ Mod2File md.Name ++ ": " ++ ErrFileEntryNotFound) := by
    unfold AddFilesFromModule
    simp [addFilesFromModuleF, resolveStep, alookup, hmiss]
  have hbuild : buildDeviceFirmwareManifest gc allRoots deviceName fwDef =
      .error ("Cannot add files from module " ++ md.Name ++ ": " ++
        ("Error finding " ++ Mod2File md.Name ++ ": " ++ ErrFileEntryNotFound)) := by
    unfold buildDeviceFirmwareManifest deviceFileMap
    rw [hroots, hmods]
    simp only [resolveModules, hadd]
  refine ⟨_, hbuild, ?_, ?_, ?_⟩
  · apply strContains_of_split "Cannot add files from module ".toList
      (": " ++ ("Error finding " ++ Mod2File md.Name ++ ": " ++ ErrFileEntryNotFound)).toList
    simp [toList_append]
  · apply strContains_of_split
      ("Cannot add files from module " ++ md.Name ++ ": " ++ "Error finding ").toList
      (": " ++ ErrFileEntryNotFound).toList
    simp [toList_append]
  · unfold processDevice
    rw [hbuild]

/-- Witness for the amended C7 on the concrete `mydevice` run. -/
theorem C7_witness :
    ∃ msg,
      buildDeviceFirmwareManifest w7glob w7AllRoots "mydevice" w7fw = .error msg ∧
      strContains msg "missing.module" = true ∧
      strContains msg (Mod2File "missing.module") = true ∧
      processDevice w6digest w7glob (fun _ => none) w7AllRoots "mydevice" w7fw =
        ([], some msg) :=
  C7_amended_missing_module w6digest w7glob (fun _ => none) w7AllRoots "mydevice"
    w7fw ⟨"missing.module", false⟩ [] [⟨"firmware", []⟩] rfl rfl rfl

/-! ### C8: all-or-nothing output artifacts -/

/-- Every file indexed in a root is readable on the filesystem — this is
exactly what a successful `AddRoot` establishes (it hashes every file it
indexes). -/
def RootReadable (fs : String → Option String) (root : FirmwareRoot) : Prop :=
  ∀ kv ∈ root.Files, (fs (joinPath kv.2.Base kv.2.Path)).isSome = true

/-- All indexed roots are readable. -/
def AllReadable (fs : String → Option String)
    (allRoots : List (String × FirmwareRoot)) : Prop :=
  ∀ kv ∈ allRoots, RootReadable fs kv.2

/-- Every entry of a file map is readable. -/
def FMReadable (fs : String → Option String) (fm : FileMap) : Prop :=
  ∀ kv ∈ fm, (fs (joinPath kv.2.Base kv.2.Path)).isSome = true

/-- Membership characterisation of `libRootsOf`. -/
theorem libRootsOf_mem {allRoots : List (String × FirmwareRoot)}
    {libs : List LibDef} {rs : List FirmwareRoot}
    (h : libRootsOf allRoots libs = .ok rs) :
    ∀ r ∈ rs, ∃ l ∈ libs, l.IncludeLua = true ∧
      alookup allRoots (joinPath "site/lib" l.Name) = some r := by
  induction libs generalizing rs with
  | nil =>
    simp [libRootsOf] at h
    subst h
    simp
  | cons libDef rest ih =>
    by_cases hinc : libDef.IncludeLua = true
    · cases hlook : alookup allRoots (joinPath "site/lib" libDef.Name) with
      | none => simp [libRootsOf, hinc, hlook] at h
      | some root =>
        cases hrest : libRootsOf allRoots rest with
        | error e => simp [libRootsOf, hinc, hlook, hrest] at h
        | ok rs2 =>
          have hrs : rs = root :: rs2 := by
            simp [libRootsOf, hinc, hlook, hrest] at h
            exact h.symm
          subst hrs
          intro r hr
          rcases List.mem_cons.mp hr with hre | hmem
          · exact ⟨libDef, List.mem_cons_self _ _, hinc, hre ▸ hlook⟩
          · obtain ⟨l, hl, h1, h2⟩ := ih hrest r hmem
            exact ⟨l, List.mem_cons_of_mem _ hl, h1, h2⟩
    · have h2 : libRootsOf allRoots rest = .ok rs := by
        simpa [libRootsOf, hinc] using h
      intro r hr
      obtain ⟨l, hl, ha, hb⟩ := ih h2 r hr
      exact ⟨l, List.mem_cons_of_mem _ hl, ha, hb⟩

/-- The search roots of a device are readable whenever all indexed roots
are. -/
theorem roots_readable {fs : String → Option String}
    {allRoots : List (String × FirmwareRoot)} {libs : List LibDef}
    {roots : List FirmwareRoot} (hall : AllReadable fs allRoots)
    (h : getDeviceFirmwareRoots allRoots libs = .ok roots) :
    ∀ r ∈ roots, RootReadable fs r := by
  unfold getDeviceFirmwareRoots at h
  cases hlr : libRootsOf allRoots libs with
  | error e => rw [hlr] at h; cases h
  | ok rs =>
    rw [hlr] at h
    simp at h
    subst h
    intro r hr
    rcases List.mem_append.mp hr with hmem | hmem
    · obtain ⟨l, _, _, hlook⟩ := libRootsOf_mem hlr r hmem
      exact hall _ (alookup_some_mem hlook)
    · have hre : r = (alookup allRoots "firmware").getD emptyRoot := by
        simpa using hmem
      subst hre
      cases hfw : alookup allRoots "firmware" with
      | none =>
        intro kv hkv
        simp [emptyRoot] at hkv
      | some root =>
        simpa using hall _ (alookup_some_mem hfw)

/-- `Extends` preserves readability: all added entries come from the
searched roots. -/
theorem extends_readable {fs : String → Option String}
    {roots : List FirmwareRoot} {fm fm2 : FileMap}
    (hext : Extends roots fm fm2)
    (hroots : ∀ r ∈ roots, RootReadable fs r)
    (hfm : FMReadable fs fm) : FMReadable fs fm2 := by
  obtain ⟨ext, rfl, hmem, _, _⟩ := hext
  intro kv hkv
  rcases List.mem_append.mp hkv with h | h
  · exact hfm kv h
  · obtain ⟨r, hr, hkv2⟩ := hmem kv h
    exact hroots r hr kv hkv2

/-- The module-resolution loop preserves readability. -/
theorem resolveModules_readable {fs : String → Option String}
    {roots : List FirmwareRoot} (hroots : ∀ r ∈ roots, RootReadable fs r) :
    ∀ (mods : List ModuleDef) (fm fm2 : FileMap),
      FMReadable fs fm → resolveModules roots mods fm = .ok fm2 →
      FMReadable fs fm2 := by
  intro mods
  induction mods with
  | nil =>
    intro fm fm2 hr h
    simp [resolveModules] at h
    subst h
    exact hr
  | cons md rest ih =>
    intro fm fm2 hr h
    cases hadd : AddFilesFromModule md.Name roots fm with
    | error e => simp [resolveModules, hadd] at h
    | ok fmx =>
      simp only [resolveModules, hadd] at h
      exact ih fmx fm2
        (extends_readable (addFilesFromModule_ok_extends hadd) hroots hr) h

/-- The glob-match fold preserves readability when the matched library
files are readable. -/
theorem addMatching_readable {fs : String → Option String} (g : String → Bool) :
    ∀ (files : List (String × FileEntry2)),
      (∀ kv ∈ files, (fs (joinPath kv.2.Base kv.2.Path)).isSome = true) →
      ∀ fm, FMReadable fs fm → FMReadable fs (addMatching g files fm) := by
  intro files
  induction files with
  | nil => intro _ fm h; exact h
  | cons kv rest ih =>
    intro hfiles fm h
    unfold addMatching
    simp only [List.foldl_cons]
    have hstep : FMReadable fs (if g kv.1 then setk fm kv.1 kv.2 else fm) := by
      by_cases hg : g kv.1 = true
      · rw [if_pos hg]
        intro kv2 hkv2
        rcases setk_mem fm kv.1 kv.2 kv2 hkv2 with h2 | h2
        · exact h kv2 h2
        · rw [h2]
          exact hfiles kv (List.mem_cons_self _ _)
      · rw [if_neg hg]
        exact h
    exact ih (fun kv2 h2 => hfiles kv2 (List.mem_cons_of_mem _ h2)) _ hstep

/-- The pattern loop preserves readability. -/
theorem addLibPatterns_readable {fs : String → Option String}
    {allRoots : List (String × FirmwareRoot)} (hall : AllReadable fs allRoots)
    (gc : String → Option (String → Bool)) (libName : String) :
    ∀ (pats : List String) (fm fm2 : FileMap),
      FMReadable fs fm → addLibPatterns gc allRoots libName pats fm = .ok fm2 →
      FMReadable fs fm2 := by
  intro pats
  induction pats with
  | nil =>
    intro fm fm2 h hp
    simp [addLibPatterns] at hp
    subst hp
    exact h
  | cons pat rest ih =>
    intro fm fm2 h hp
    cases hg : gc pat with
    | none => simp [addLibPatterns, hg] at hp
    | some g =>
      cases hlook : alookup allRoots (joinPath "site/lib" libName) with
      | none => simp [addLibPatterns, hg, hlook] at hp
      | some libRoot =>
        simp only [addLibPatterns, hg, hlook] at hp
        exact ih _ fm2
          (addMatching_readable g libRoot.Files (hall _ (alookup_some_mem hlook)) fm h) hp

/-- `AddOtherFiles` preserves readability. -/
theorem addOtherFiles_readable {fs : String → Option String}
    {allRoots : List (String × FirmwareRoot)} (hall : AllReadable fs allRoots)
    (gc : String → Option (String → Bool)) :
    ∀ (libs : List LibDef) (fm fm2 : FileMap),
      FMReadable fs fm → AddOtherFiles gc allRoots libs fm = .ok fm2 →
      FMReadable fs fm2 := by
  intro libs
  induction libs with
  | nil =>
    intro fm fm2 h hp
    simp [AddOtherFiles] at hp
    subst hp
    exact h
  | cons lib rest ih =>
    intro fm fm2 h hp
    cases hpat : addLibPatterns gc allRoots lib.Name lib.Include fm with
    | error e => simp [AddOtherFiles, hpat] at hp
    | ok fmx =>
      simp only [AddOtherFiles, hpat] at hp
      exact ih fmx fm2 (addLibPatterns_readable hall gc lib.Name lib.Include fm fmx h hpat) hp

/-- The device overlay fold preserves readability when the device root's
files are readable. -/
theorem overlay_fold_readable {fs : String → Option String} :
    ∀ (files : List (String × FileEntry2)),
      (∀ kv ∈ files, (fs (joinPath kv.2.Base kv.2.Path)).isSome = true) →
      ∀ fm, FMReadable fs fm →
      FMReadable fs (files.foldl (fun acc kv => setk acc kv.2.Path kv.2) fm) := by
  intro files
  induction files with
  | nil => intro _ fm h; exact h
  | cons kv rest ih =>
    intro hfiles fm h
    simp only [List.foldl_cons]
    apply ih (fun kv2 h2 => hfiles kv2 (List.mem_cons_of_mem _ h2))
    intro kv2 hkv2
    rcases setk_mem fm kv.2.Path kv.2 kv2 hkv2 with h2 | h2
    · exact h kv2 h2
    · rw [h2]
      exact hfiles kv (List.mem_cons_self _ _)

/-- Every entry of a successfully assembled device file map is readable. -/
theorem deviceFileMap_readable {fs : String → Option String}
    {gc : String → Option (String → Bool)}
    {allRoots : List (String × FirmwareRoot)} {deviceName : String}
    {fwDef : FirmwareDef2} {fm : FileMap}
    (hall : AllReadable fs allRoots)
    (h : deviceFileMap gc allRoots deviceName fwDef = .ok fm) :
    FMReadable fs fm := by
  unfold deviceFileMap at h
  cases hroots : getDeviceFirmwareRoots allRoots fwDef.Libs with
  | error e => rw [hroots] at h; cases h
  | ok roots =>
    rw [hroots] at h
    cases hres : resolveModules roots fwDef.Modules [] with
    | error e =>
      simp only [hres] at h
      cases h
    | ok fm1 =>
      simp only [hres] at h
      cases hoth : AddOtherFiles gc allRoots fwDef.Libs fm1 with
      | error e =>
        simp only [hoth] at h
        cases h
      | ok fm2 =>
        simp only [hoth] at h
        cases hdev : alookup allRoots (joinPath "site/devices" deviceName) with
        | none =>
          simp only [hdev] at h
          cases h
        | some deviceRoot =>
          simp only [hdev, Except.ok.injEq] at h
          subst h
          have h1 : FMReadable fs fm1 :=
            resolveModules_readable (roots_readable hall hroots)
              fwDef.Modules [] fm1 (fun kv hkv => absurd hkv (List.not_mem_nil kv)) hres
          have h2 : FMReadable fs fm2 :=
            addOtherFiles_readable hall gc fwDef.Libs fm1 fm2 h1 hoth
          exact overlay_fold_readable deviceRoot.Files
            (hall _ (alookup_some_mem hdev)) fm2 h2

/-- Every file of a successfully built manifest is readable. -/
theorem manifest_files_readable {fs : String → Option String}
    {gc : String → Option (String → Bool)}
    {allRoots : List (String × FirmwareRoot)} {deviceName : String}
    {fwDef : FirmwareDef2} {m : FirmwareManifest2}
    (hall : AllReadable fs allRoots)
    (h : buildDeviceFirmwareManifest gc allRoots deviceName fwDef = .ok m) :
    ∀ fe ∈ m.Files, (fs (joinPath fe.Base fe.Path)).isSome = true := by
  unfold buildDeviceFirmwareManifest at h
  cases hfm : deviceFileMap gc allRoots deviceName fwDef with
  | error e => rw [hfm] at h; cases h
  | ok fm =>
    rw [hfm] at h
    simp only [Except.ok.injEq] at h
    subst h
    intro fe hfe
    simp only [List.mem_map] at hfe
    obtain ⟨kv, hkv, hkv2⟩ := hfe
    subst hkv2
    exact deviceFileMap_readable hall hfm kv hkv

/-- A manifest whose files are all readable packs successfully. -/
theorem writeImage_ok_of_readable {fs : String → Option String}
    {m : FirmwareManifest2}
    (hread : ∀ fe ∈ m.Files, (fs (joinPath fe.Base fe.Path)).isSome = true)
    (sha1hex : String → String) :
    ∃ img, writeFirmwareImage sha1hex fs m = .ok img := by
  have hsorted : ∀ fe ∈ sortFiles m.Files,
      (fs (joinPath fe.Base fe.Path)).isSome = true := by
    intro fe hfe
    exact hread fe ((List.perm_insertionSort pathLe m.Files).mem_iff.mp hfe)
  obtain ⟨recs, dfs, hrec⟩ := imageRecords_ok_of_readable fs _ hsorted
  refine ⟨"Checksum: " ++ sha1hex (imageHeader m ++ recs ++ datafilesRecord dfs) ++
    "\n" ++ (imageHeader m ++ recs ++ datafilesRecord dfs), ?_⟩
  unfold writeFirmwareImage imagePayload
  rw [hrec]

/-- **C8**: for every device processed by the `Build2` loop over fully
indexed (hence readable) roots, there is no partial output: either the
manifest build fails and nothing at all is written for the device, or
the manifest document and the complete image file are both written.  In
particular the partial case — manifest written but the created image
file left empty — is unreachable when the filesystem holds every indexed
file. -/
theorem C8_no_partial_artifacts (sha1hex : String → String)
    (gc : String → Option (String → Bool)) (fs : String → Option String)
    (allRoots : List (String × FirmwareRoot)) (deviceName : String)
    (fwDef : FirmwareDef2) (hall : AllReadable fs allRoots) :
    (∃ e, processDevice sha1hex gc fs allRoots deviceName fwDef = ([], some e)) ∨
    (∃ m img,
      buildDeviceFirmwareManifest gc allRoots deviceName fwDef = .ok m ∧
      writeFirmwareImage sha1hex fs m = .ok img ∧
      processDevice sha1hex gc fs allRoots deviceName fwDef =
        ([(joinPath "dist" (m.ID ++ ".json"), manifestDoc m),
          (joinPath "dist" (m.ID ++ ".img"), img)], none)) := by
  cases hb : buildDeviceFirmwareManifest gc allRoots deviceName fwDef with
  | error e =>
    left
    refine ⟨e, ?_⟩
    unfold processDevice
    rw [hb]
  | ok m =>
    right
    obtain ⟨img, himg⟩ :=
      writeImage_ok_of_readable (manifest_files_readable hall hb) sha1hex
    refine ⟨m, img, rfl, himg, ?_⟩
    unfold processDevice
    rw [hb]
    simp only [himg]

/-- Root set of the C8 witness. -/
def w8Entry : FileEntry2 := ⟨"firmware", "init.lua", "h8", [], []⟩

/-- Indexed roots of the C8 witness. -/
def w8AllRoots : List (String × FirmwareRoot) :=
  [("firmware", ⟨"firmware", [("init.lua", w8Entry)]⟩),
   ("site/devices/d8", ⟨"site/devices/d8", []⟩)]

/-- Filesystem of the C8 witness. -/
def w8fs : String → Option String := fun p =>
  if p = "firmware/init.lua" then some "print(8)\n" else none

/-- Device definition of the C8 witness. -/
def w8fw : FirmwareDef2 := ⟨"Dev8", "d8", [], [⟨"init", false⟩]⟩

/-- Witness for C8 on a concrete successful device build. -/
theorem C8_witness :
    (∃ e, processDevice w6digest w7glob w8fs w8AllRoots "d8" w8fw = ([], some e)) ∨
    (∃ m img,
      buildDeviceFirmwareManifest w7glob w8AllRoots "d8" w8fw = .ok m ∧
      writeFirmwareImage w6digest w8fs m = .ok img ∧
      processDevice w6digest w7glob w8fs w8AllRoots "d8" w8fw =
        ([(joinPath "dist" (m.ID ++ ".json"), manifestDoc m),
          (joinPath "dist" (m.ID ++ ".img"), img)], none)) :=
  C8_no_partial_artifacts w6digest w7glob w8fs w8AllRoots "d8" w8fw
    (by unfold AllReadable RootReadable; decide)

/-! ### C10: the device's own root is never searched for modules -/

/-- **C10**: the dependency-search root list of a device consists only of
the roots of its `IncludeLua` libraries and the shared core root — the
device's own root is never among them (first conjunct).  Consequently an
entry module whose script file exists only in the device's own root
fails resolution with the file-not-found error, even though the
device-specific overlay would include that very file verbatim (second
conjunct). -/
theorem C10_module_search_skips_device_root
    (allRoots : List (String × FirmwareRoot)) (libs : List LibDef)
    (roots : List FirmwareRoot) (deviceRoot : FirmwareRoot) (m : String)
    (e : FileEntry2)
    (hroots : getDeviceFirmwareRoots allRoots libs = .ok roots) :
    (∀ r ∈ roots,
      r = (alookup allRoots "firmware").getD emptyRoot ∨
      ∃ l ∈ libs, l.IncludeLua = true ∧
        alookup allRoots (joinPath "site/lib" l.Name) = some r) ∧
    ((∀ r ∈ roots, alookup r.Files (Mod2File m) = none) →
      alookup deviceRoot.Files (Mod2File m) = some e →
      (∀ kv ∈ deviceRoot.Files, kv.1 = kv.2.Path) →
      (deviceRoot.Files.map (fun kv => kv.2.Path)).Nodup →
      AddFilesFromModule m roots [] =
        .error ("Error finding " ++ Mod2File m ++ ": " ++ ErrFileEntryNotFound) ∧
      ∀ fm, alookup (AddDeviceSpecificFiles deviceRoot fm) (Mod2File m) = some e) := by
  constructor
  · unfold getDeviceFirmwareRoots at hroots
    cases hlr : libRootsOf allRoots libs with
    | error msg => rw [hlr] at hroots; cases hroots
    | ok rs =>
      rw [hlr] at hroots
      simp only [Except.ok.injEq] at hroots
      subst hroots
      intro r hr
      rcases List.mem_append.mp hr with hmem | hmem
      · obtain ⟨l, hl, h1, h2⟩ := libRootsOf_mem hlr r hmem
        exact Or.inr ⟨l, hl, h1, h2⟩
      · left
        simpa using hmem
  · intro hnone hdev hkeyed hnd
    have hfind : FindInRoots (Mod2File m) roots = none :=
      findInRoots_eq_none.mpr hnone
    constructor
    · unfold AddFilesFromModule
      simp [addFilesFromModuleF, resolveStep, alookup, hfind]
    · intro fm
      exact overlay_lookup deviceRoot.Files fm (Mod2File m) e hkeyed hnd hdev

/-- Entry living only in the device's own root, for the C10 witness. -/
def w10Entry : FileEntry2 := ⟨"site/devices/d10", "local.lua", "h10", [], []⟩

/-- The device root of the C10 witness. -/
def w10DevRoot : FirmwareRoot :=
  ⟨"site/devices/d10", [("local.lua", w10Entry)]⟩

/-- Indexed roots of the C10 witness: the module's file exists only in
the device's own root. -/
def w10AllRoots : List (String × FirmwareRoot) :=
  [("firmware", ⟨"firmware", []⟩), ("site/devices/d10", w10DevRoot)]

/-- Witness for C10: resolving the module fails even though the overlay
includes its file. -/
theorem C10_witness :
    AddFilesFromModule "local" [⟨"firmware", []⟩] [] =
      .error ("Error finding " ++ Mod2File "local" ++ ": " ++ ErrFileEntryNotFound) ∧
    alookup (AddDeviceSpecificFiles w10DevRoot []) (Mod2File "local") = some w10Entry := by
  have h := (C10_module_search_skips_device_root w10AllRoots [] [⟨"firmware", []⟩]
    w10DevRoot "local" w10Entry (by rfl)).2
    (by decide) (by decide) (by decide) (by decide)
  exact ⟨h.1, h.2 []⟩

end Espore
